import Mathlib

/-!
Shallow embedding of `src/training/pytorch/show_matrix.py` (the attribution and
counterfactual-analysis engine).  Python floats are modelled as exact rationals
(`Rat`); the trained network is modelled as an opaque pure evaluator, as the spec
directs.  Board squares use the `python-chess` convention of the source code:
`chess.SQUARES` is `[A1, B1, ..., H8]`, so square index 0 is a1, index `i` has
file `i % 8` (0 = file a) and rank `i / 8 + 1`.
-/

namespace ShowMatrix

/-- The six piece kinds of `python-chess` (`chess.PAWN` .. `chess.KING`). -/
inductive PieceType : Type
  | pawn | knight | bishop | rook | queen | king
  deriving DecidableEq, Repr

/-- A `chess.Piece`: a kind plus a colour (`white = true` for White). -/
structure Piece : Type where
  pieceType : PieceType
  white : Bool
  deriving DecidableEq, Repr

/-- A `chess.Board` value: piece placement plus the game metadata a FEN carries,
plus the move stack.  Moves themselves are irrelevant to this program, so stack
entries are kept abstract as strings. -/
structure Position : Type where
  placement : Fin 64 → Option Piece
  turn : Bool
  castlingRights : Nat
  epSquare : Option (Fin 64)
  halfmoveClock : Nat
  fullmoveNumber : Nat
  moveStack : List String

/-- `board.copy(stack=False)`: same placement and metadata, empty move stack. -/
def copyNoStack (pos : Position) : Position :=
  { pos with moveStack := [] }

/-- `board.remove_piece_at(sq)` on a `chess.Board`: clears the square and the
move stack; all other metadata is untouched. -/
def removePieceAt (pos : Position) (i : Fin 64) : Position :=
  { pos with placement := Function.update pos.placement i none, moveStack := [] }

/-- The modified position the counterfactual loop evaluates:
`b2 = board.copy(stack=False); b2.remove_piece_at(sq_idx)`. -/
def removedPosition (pos : Position) (i : Fin 64) : Position :=
  removePieceAt (copyNoStack pos) i

/-- `chess.square_name` for square index `n` (a1 = 0): file letter then rank digit. -/
def squareNameNat (n : Nat) : String :=
  String.mk [Char.ofNat (97 + n % 8), Char.ofNat (49 + n / 8)]

/-- Rank number (1..8) of square index `n` in the indexing the code uses. -/
def squareRankNat (n : Nat) : Nat := n / 8 + 1

/-- File number (0 = a .. 7 = h) of square index `n`. -/
def squareFileNat (n : Nat) : Nat := n % 8

/-- Lower-case letter of a piece kind, as `python-chess` prints it. -/
def typeLetter : PieceType → Char
  | .pawn => 'p' | .knight => 'n' | .bishop => 'b'
  | .rook => 'r' | .queen => 'q' | .king => 'k'

/-- `piece.symbol()`: the kind letter, upper case for White. -/
def pieceSymbol (p : Piece) : String :=
  if p.white then String.mk [(typeLetter p.pieceType).toUpper]
  else String.mk [typeLetter p.pieceType]

/-- Back-rank piece kind at file `f` in the standard starting position. -/
def backRank : Nat → PieceType
  | 0 => .rook | 1 => .knight | 2 => .bishop | 3 => .queen
  | 4 => .king | 5 => .bishop | 6 => .knight | _ => .rook

/-- Placement described by the default FEN
`rnbqkbnr/pppppppp/8/8/8/8/PPPPPPPP/RNBQKBNR w KQkq - 0 1`. -/
def startingPlacement (i : Fin 64) : Option Piece :=
  let r := i.val / 8
  let f := i.val % 8
  if r = 0 then some ⟨backRank f, true⟩
  else if r = 1 then some ⟨.pawn, true⟩
  else if r = 6 then some ⟨.pawn, false⟩
  else if r = 7 then some ⟨backRank f, false⟩
  else none

/-- `chess.Board()` on the default FEN of the script. -/
def startingBoard : Position :=
  { placement := startingPlacement, turn := true, castlingRights := 15,
    epSquare := none, halfmoveClock := 0, fullmoveNumber := 1, moveStack := [] }

/-! Section: Piece-nominal override parsing (`main`, the `--piece-nominals` handling)

Strings are handled as `List Char` so every definition reduces in the kernel.
`splitOnChar` is Python's `str.split` with a one-character separator. -/

/-- Python `s.split(sep)` for a single-character separator: `splitOnChar c s`
always returns at least one (possibly empty) piece. -/
def splitOnChar (c : Char) : List Char → List (List Char)
  | [] => [[]]
  | x :: xs =>
    let r := splitOnChar c xs
    if x = c then [] :: r
    else
      match r with
      | [] => [[x]]
      | y :: ys => (x :: y) :: ys

/-- Value of a list of decimal digit characters. -/
def digitsToNat (cs : List Char) : Nat :=
  cs.foldl (fun a c => a * 10 + (c.toNat - 48)) 0

/-- Python whitespace test used by `str.strip` (ASCII subset). -/
def isPySpace (c : Char) : Bool :=
  c = ' ' || c = '\t' || c = '\n' || c = '\r'

/-- Python `s.strip()` (ASCII whitespace). -/
def strip (cs : List Char) : List Char :=
  ((cs.dropWhile isPySpace).reverse.dropWhile isPySpace).reverse

/-- Models Python `float(s)` on optionally signed plain decimal literals with
optional surrounding whitespace (`"4.1"`, `"-2"`, `"5."`, `".5"`); `none` where
Python raises `ValueError` (empty string, stray characters, no digits).  The
decimal value `±(i.f)` is built as the exact rational
`±(i * 10^len(f) + f) / 10^len(f)` via `mkRat`. -/
def pyFloat (s : List Char) : Option Rat :=
  let cs := strip s
  let signAndRest : Int × List Char :=
    match cs with
    | '-' :: r => (-1, r)
    | '+' :: r => (1, r)
    | r => (1, r)
  let sign := signAndRest.1
  let rest := signAndRest.2
  let intPart := rest.takeWhile Char.isDigit
  let rest2 := rest.dropWhile Char.isDigit
  match rest2 with
  | [] =>
    if intPart.isEmpty then none
    else some (mkRat (sign * digitsToNat intPart) 1)
  | '.' :: frac =>
    let fracPart := frac.takeWhile Char.isDigit
    let rest3 := frac.dropWhile Char.isDigit
    if rest3.isEmpty && !(intPart.isEmpty && fracPart.isEmpty) then
      some (mkRat (sign * (digitsToNat intPart * 10 ^ fracPart.length + digitsToNat fracPart))
        (10 ^ fracPart.length))
    else none
  | _ => none

/-- `k.strip().upper()` applied to an override key. -/
def normKey (k : List Char) : List Char :=
  (strip k).map Char.toUpper

/-- The effective nominal table: Python dict with `.get` lookup, so a missing
key and an explicit `None` entry both read back as `none`. -/
def NomTable : Type := List Char → Option Rat

/-- The hard-coded dict `{"P": 1.0, "N": 3.0, "B": 3.0, "R": 5.0, "Q": 7.0, "K": None}`. -/
def defaultNom : NomTable := fun k =>
  if k = ['P'] then some 1
  else if k = ['N'] then some 3
  else if k = ['B'] then some 3
  else if k = ['R'] then some 5
  else if k = ['Q'] then some 7
  else none

/-- The two `ValueError`s Python can raise inside the parsing loop:
unpacking `part.split(":")` into two names when it has ≠ 2 pieces, and
`float(v)` on a malformed literal. -/
inductive NomErr : Type
  | unpack | badValue
  deriving DecidableEq, Repr

/-- One iteration of the parsing loop:
`if ":" in part: k, v = part.split(":"); default_nom[k.strip().upper()] = float(v)`. -/
def parsePart (tbl : NomTable) (part : List Char) : Except NomErr NomTable :=
  if ':' ∈ part then
    match splitOnChar ':' part with
    | [k, v] =>
      match pyFloat v with
      | some x => .ok (Function.update tbl (normKey k) (some x))
      | none => .error .badValue
    | _ => .error .unpack
  else .ok tbl

/-- The whole parsing loop over `args.piece_nominals.split(",")`, starting from
the hard-coded defaults. -/
def parseNominals (s : List Char) : Except NomErr NomTable :=
  (splitOnChar ',' s).foldlM parsePart defaultNom

/-- The key/value pair a token contributes when it is well formed (has exactly
one separator and a parseable value); `none` for tokens that are skipped or
would raise. -/
def tokenPair (part : List Char) : Option (List Char × Rat) :=
  if ':' ∈ part then
    match splitOnChar ':' part with
    | [k, v] => (pyFloat v).map (fun x => (normKey k, x))
    | _ => none
  else none

/-- All well-formed key/value pairs of an override string, in token order. -/
def pairsOf (s : List Char) : List (List Char × Rat) :=
  (splitOnChar ',' s).filterMap tokenPair

/-- Last value bound to `key` by `ps`, or the fallback `d` when `key` never occurs. -/
def lastValue (ps : List (List Char × Rat)) (key : List Char) (d : Option Rat) : Option Rat :=
  ps.foldl (fun acc p => if p.1 = key then some p.2 else acc) d

/-- The default of the `--piece-nominals` argument:
`"P:1,N:4.1,B:4.1,R:5,Q:7.8,K:4.6"`. -/
def defaultNominalsArg : List Char :=
  ('P' :: ':' :: '1' :: ',' :: 'N' :: ':' :: '4' :: '.' :: '1' :: ',' ::
   'B' :: ':' :: '4' :: '.' :: '1' :: ',' :: 'R' :: ':' :: '5' :: ',' ::
   'Q' :: ':' :: '7' :: '.' :: '8' :: ',' :: 'K' :: ':' :: '4' :: '.' :: '6' :: [])

/-- The error component of a parsing outcome (`none` when parsing succeeded). -/
def errOf : Except NomErr NomTable → Option NomErr
  | .error e => some e
  | .ok _ => none

/-- The table a successful parse produced (falling back to the defaults, which
is never exercised: the program aborts on a parse error). -/
def tableOf (s : List Char) : NomTable :=
  (parseNominals s).toOption.getD defaultNom

/-- `nominal_map`: the per-kind lookup built from the parsed table via `.get`. -/
def nominalMap (tbl : NomTable) : PieceType → Option Rat
  | .pawn => tbl ['P']
  | .knight => tbl ['N']
  | .bishop => tbl ['B']
  | .rook => tbl ['R']
  | .queen => tbl ['Q']
  | .king => tbl ['K']

/-! Section: Attribution extraction -/

/-- Modelled from the spec: the 12 piece-type/colour column index of the
feature planes produced by `board_to_features` (`generate_dataset.py`, not part
of the analysed sources).  The spec fixes only that the 12 columns are the 12
piece-type/colour combinations; the concrete order is immaterial to every claim. -/
def typeIdx : PieceType → Nat
  | .pawn => 0 | .knight => 1 | .bishop => 2
  | .rook => 3 | .queen => 4 | .king => 5

/-- Modelled from the spec: the `SquareScores` column of the piece actually on
a square, as selected by `sq.gather(1, piece_idx...)` where `piece_idx` is the
argmax of the one-hot feature row of that square. -/
def pieceIndex (p : Piece) : Fin 12 :=
  ⟨typeIdx p.pieceType + (if p.white then 0 else 6), by
    rcases p with ⟨t, w⟩; cases t <;> cases w <;> decide⟩

/-- Modelled from the spec: the opaque injected evaluator
`Evaluate(Position) -> (GlobalScore, SquareScores)` (the composition of
`board_to_features` and the loaded network, both external to the core). -/
def Evaluator : Type := Position → Rat × (Fin 64 → Fin 12 → Rat)

/-- The two optional adjustments of `main`:
`if args.normalize and nominal: val /= nominal` followed by
`if args.scale_piece and nominal: val *= nominal`.  Python truthiness makes a
`None` or `0.0` nominal disable both branches. -/
def adjust (normalizeFlag scalePieceFlag : Bool) (nominal : Option Rat) (v : Rat) : Rat :=
  match nominal with
  | none => v
  | some n =>
    if n = 0 then v
    else
      let v1 := if normalizeFlag then v / n else v
      if scalePieceFlag then v1 * n else v1

/-- The value the `contrib_list` loop appends for square `i`: `0.0` for an
empty square, otherwise the raw per-square score of the occupying piece with
the optional adjustments applied. -/
def contribAt (scores : Fin 64 → Fin 12 → Rat) (pos : Position)
    (normalizeFlag scalePieceFlag : Bool) (tbl : NomTable) (i : Fin 64) : Rat :=
  match pos.placement i with
  | some p =>
    adjust normalizeFlag scalePieceFlag (nominalMap tbl p.pieceType) (scores i (pieceIndex p))
  | none => 0

/-- `contrib_list`: one value per square, appended in `chess.SQUARES` order
(square index 0, 1, ..., 63). -/
def contribList (scores : Fin 64 → Fin 12 → Rat) (pos : Position)
    (normalizeFlag scalePieceFlag : Bool) (tbl : NomTable) : List Rat :=
  List.ofFn (contribAt scores pos normalizeFlag scalePieceFlag tbl)

/-- `format_matrix`: the 8 printed rows of the plain numeric grid, iterating
`r` from 7 down to 0 and `f` from 0 to 7 with `idx = r * 8 + f`.  Only the
arrangement of values is modelled; the fixed-width float formatting is not. -/
def formatMatrix (contrib : List Rat) : List (List Rat) :=
  ((List.range 8).reverse).map fun r =>
    (List.range 8).map fun f => contrib.getD (r * 8 + f) 0

/-! Section: Counterfactual analysis -/

/-- The tuple `(delta, piece.symbol(), chess.square_name(sq_idx), sq_idx)`
appended for each analysed square. -/
structure CounterfactualRow : Type where
  delta : Rat
  symbol : String
  sqName : String
  sqIdx : Fin 64
  deriving DecidableEq, Repr

/-- The squares the counterfactual loop analyses: occupied by a non-king piece. -/
def nonKingOccupied (pos : Position) (i : Fin 64) : Bool :=
  match pos.placement i with
  | some p => p.pieceType != PieceType.king
  | none => false

/-- The `deltas` loop: skip empty and king squares; otherwise copy the board
without its move stack, remove the piece, re-evaluate, and record
`delta = global_eval - g2.item()`. -/
def counterfactualRows (ev : Evaluator) (pos : Position) : List CounterfactualRow :=
  let globalEval := (ev pos).1
  (List.finRange 64).filterMap fun i =>
    match pos.placement i with
    | none => none
    | some piece =>
      if piece.pieceType = PieceType.king then none
      else
        some { delta := globalEval - (ev (removedPosition pos i)).1,
               symbol := pieceSymbol piece, sqName := squareNameNat i.val, sqIdx := i }

/-- One iteration of the `deltas` loop with the board state threaded
explicitly: the iteration reads `board` (the second component) but only ever
mutates the derived copy `b2`, so it hands the board on unchanged. -/
def counterfactualStep (ev : Evaluator) (globalEval : Rat)
    (acc : List CounterfactualRow × Position) (i : Fin 64) :
    List CounterfactualRow × Position :=
  let board := acc.2
  match board.placement i with
  | none => acc
  | some piece =>
    if piece.pieceType = PieceType.king then acc
    else
      let b2 := removedPosition board i
      (acc.1 ++ [{ delta := globalEval - (ev b2).1, symbol := pieceSymbol piece,
                   sqName := squareNameNat i.val, sqIdx := i }], board)

/-- The whole `deltas` loop as a state-threading fold over the 64 squares: the
second component is the board the loop finishes with. -/
def counterfactualLoop (ev : Evaluator) (pos : Position) :
    List CounterfactualRow × Position :=
  (List.finRange 64).foldl (counterfactualStep ev (ev pos).1) ([], pos)

/-- Python truthiness of an optional nominal, as tested by
`if args.normalize and nominal:`: `None` and `0.0` are falsy. -/
def truthy : Option Rat → Bool
  | none => false
  | some n => n != 0

/-- Descending comparison used by `deltas.sort(key=lambda x: x[0], reverse=True)`. -/
def deltaGe (a b : CounterfactualRow) : Bool :=
  decide (b.delta ≤ a.delta)

/-- The ranked list the report prints: all rows, sorted by delta descending. -/
def reportedDeltas (ev : Evaluator) (pos : Position) : List CounterfactualRow :=
  (counterfactualRows ev pos).mergeSort deltaGe

/-! Section: Concrete fixtures used to instantiate the theorems -/

/-- A deterministic stub score matrix: every entry is 1. -/
def onesScores : Fin 64 → Fin 12 → Rat := fun _ _ => 1

/-- A deterministic stub evaluator returning global score 0 and zero scores. -/
def zeroEv : Evaluator := fun _ => (0, fun _ _ => 0)

/-- A position holding a single piece on one square (all metadata trivial). -/
def singlePieceAt (p : Piece) (sq : Fin 64) : Position :=
  { placement := fun i => if i = sq then some p else none, turn := true,
    castlingRights := 0, epSquare := none, halfmoveClock := 0,
    fullmoveNumber := 1, moveStack := [] }

/-- A lone white king on a1 (square index 0). -/
def kingOnlyPos : Position := singlePieceAt ⟨PieceType.king, true⟩ 0

/-- A lone white pawn on a1 (square index 0). -/
def pawnOnlyPos : Position := singlePieceAt ⟨PieceType.pawn, true⟩ 0

/-- A lone white queen on a1 (square index 0). -/
def queenOnlyPos : Position := singlePieceAt ⟨PieceType.queen, true⟩ 0

/-- A lone white rook on a8 (square index 56). -/
def rookA8Pos : Position := singlePieceAt ⟨PieceType.rook, true⟩ 56

/-- The override string `"P:2,N:5"` of the spec's subset-override example. -/
def pnExample : List Char :=
  ('P' :: ':' :: '2' :: ',' :: 'N' :: ':' :: '5' :: [])

/-- The override string `"Q:0"` assigning the queen a zero nominal. -/
def qZeroArg : List Char := ('Q' :: ':' :: '0' :: [])

/-- The row the counterfactual loop produces for `pawnOnlyPos` under `zeroEv`. -/
def pawnRow : CounterfactualRow :=
  { delta := 0, symbol := "P", sqName := "a1", sqIdx := 0 }

/-! Section: Helper lemmas -/

lemma getD_ofFn (f : Fin 64 → Rat) (i : Fin 64) :
    (List.ofFn f).getD i.val 0 = f i := by
  rw [List.getD_eq_getElem?_getD, List.getElem?_ofFn]
  simp [List.ofFnNthVal, i.isLt]

lemma contribList_getD (scores : Fin 64 → Fin 12 → Rat) (pos : Position)
    (nf sf : Bool) (tbl : NomTable) (i : Fin 64) :
    (contribList scores pos nf sf tbl).getD i.val 0 = contribAt scores pos nf sf tbl i :=
  getD_ofFn _ i

lemma adjust_of_not_truthy (nf sf : Bool) (nom : Option Rat) (v : Rat)
    (h : truthy nom = false) : adjust nf sf nom v = v := by
  cases nom with
  | none => rfl
  | some n =>
    have hn : n = 0 := by
      by_contra hne
      simp [truthy, hne] at h
    simp [adjust, hn]

lemma adjust_both_flags (nom : Option Rat) (v : Rat) :
    adjust true true nom v = v := by
  cases nom with
  | none => rfl
  | some n =>
    by_cases hn : n = 0
    · simp [adjust, hn]
    · simp [adjust, hn, div_mul_cancel₀ v hn]

lemma foldl_snd_const {α β γ : Type} (step : β × γ → α → β × γ)
    (hstep : ∀ acc a, (step acc a).2 = acc.2) :
    ∀ (l : List α) (acc : β × γ), (l.foldl step acc).2 = acc.2 := by
  intro l
  induction l with
  | nil => intro acc; rfl
  | cons a t ih => intro acc; rw [List.foldl_cons, ih, hstep]

lemma filterMap_map_eq_filter {α β : Type} (f : α → Option β) (g : β → α) (p : α → Bool)
    (hf : ∀ a, (f a).map g = if p a then some a else none) :
    ∀ l : List α, (l.filterMap f).map g = l.filter p := by
  intro l
  induction l with
  | nil => simp
  | cons a t ih =>
    rw [List.filterMap_cons, List.filter_cons]
    cases hfa : f a with
    | none =>
      have h := hf a
      rw [hfa] at h
      by_cases hp : p a
      · rw [hp, if_pos rfl] at h; cases h
      · simp only [Bool.not_eq_true] at hp
        simp [hp, ih]
    | some b =>
      have h := hf a
      rw [hfa] at h
      by_cases hp : p a
      · simp only [hp, if_true, Option.map_some] at h
        cases h
        simp [hp, ih]
      · rw [if_neg (by simpa using hp)] at h; cases h

lemma parsePart_cases (tbl : NomTable) (p : List Char) :
    (∃ e, parsePart tbl p = Except.error e ∧ tokenPair p = none) ∨
    (parsePart tbl p = Except.ok tbl ∧ tokenPair p = none) ∨
    (∃ k x, parsePart tbl p = Except.ok (Function.update tbl k (some x)) ∧
      tokenPair p = some (k, x)) := by
  by_cases hc : ':' ∈ p
  · rcases hsp : splitOnChar ':' p with _ | ⟨k, _ | ⟨v, _ | ⟨w, rest⟩⟩⟩
    · exact Or.inl ⟨NomErr.unpack, by simp [parsePart, tokenPair, hc, hsp]⟩
    · exact Or.inl ⟨NomErr.unpack, by simp [parsePart, tokenPair, hc, hsp]⟩
    · cases hpf : pyFloat v with
      | none =>
        exact Or.inl ⟨NomErr.badValue, by simp [parsePart, tokenPair, hc, hsp, hpf]⟩
      | some x =>
        exact Or.inr (Or.inr ⟨normKey k, x, by simp [parsePart, tokenPair, hc, hsp, hpf]⟩)
    · exact Or.inl ⟨NomErr.unpack, by simp [parsePart, tokenPair, hc, hsp]⟩
  · exact Or.inr (Or.inl (by simp [parsePart, tokenPair, hc]))

lemma lastValue_cons (k : List Char) (x : Rat) (ps : List (List Char × Rat))
    (key : List Char) (d : Option Rat) :
    lastValue ((k, x) :: ps) key d = lastValue ps key (if k = key then some x else d) := rfl

lemma foldl_parse_lastValue :
    ∀ (parts : List (List Char)) (tbl out : NomTable),
      parts.foldlM parsePart tbl = Except.ok out →
      ∀ key, out key = lastValue (parts.filterMap tokenPair) key (tbl key) := by
  intro parts
  induction parts with
  | nil =>
    intro tbl out h key
    cases h
    simp [lastValue]
  | cons p rest ih =>
    intro tbl out h key
    rw [List.filterMap_cons]
    rcases parsePart_cases tbl p with ⟨e, hpp, _⟩ | ⟨hpp, htp⟩ | ⟨k, x, hpp, htp⟩
    · rw [show (p :: rest).foldlM parsePart tbl
          = parsePart tbl p >>= fun t => rest.foldlM parsePart t from rfl, hpp] at h
      cases h
    · rw [show (p :: rest).foldlM parsePart tbl
          = parsePart tbl p >>= fun t => rest.foldlM parsePart t from rfl, hpp] at h
      rw [htp]
      exact ih tbl out h key
    · rw [show (p :: rest).foldlM parsePart tbl
          = parsePart tbl p >>= fun t => rest.foldlM parsePart t from rfl, hpp] at h
      rw [htp, lastValue_cons]
      have hthis := ih (Function.update tbl k (some x)) out h key
      rw [Function.update_apply] at hthis
      rw [hthis]
      congr 1
      by_cases hk : k = key
      · rw [if_pos hk, if_pos hk.symm]
      · rw [if_neg hk, if_neg (fun hkk => hk hkk.symm)]

lemma counterfactualStep_snd (ev : Evaluator) (g : Rat)
    (acc : List CounterfactualRow × Position) (i : Fin 64) :
    (counterfactualStep ev g acc i).2 = acc.2 := by
  cases hp : acc.2.placement i with
  | none => simp [counterfactualStep, hp]
  | some piece =>
    by_cases hk : piece.pieceType = PieceType.king
    · simp [counterfactualStep, hp, hk]
    · simp [counterfactualStep, hp, hk]

/-! Section: Claim theorems -/

/-- C3 fails as stated: parsing the override string can raise.  A token with a
separator but a malformed value (`"P:x"`) raises `ValueError` from `float`, and
a token with two separators (`"P:1:2"`) raises `ValueError` from tuple
unpacking. -/
theorem c3_counterexample :
    errOf (parseNominals ('P' :: ':' :: 'x' :: [])) = some NomErr.badValue ∧
    errOf (parseNominals ('P' :: ':' :: '1' :: ':' :: '2' :: [])) = some NomErr.unpack :=
  ⟨by decide, by decide⟩

/-- C3 amended: a token without a separator is silently skipped — it raises
nothing and leaves the effective table unchanged; only a token carrying a
separator can raise (malformed value or more than one separator). -/
theorem c3_no_separator_skipped (tbl : NomTable) (part : List Char)
    (h : ':' ∉ part) :
    parsePart tbl part = Except.ok tbl ∧ tokenPair part = none := by
  constructor
  · simp [parsePart, h]
  · simp [tokenPair, h]

/-- Witness for C3 at the spec's example token `"P2"`. -/
theorem c3_witness :
    parsePart defaultNom ('P' :: '2' :: []) = Except.ok defaultNom ∧
    tokenPair ('P' :: '2' :: []) = none :=
  c3_no_separator_skipped defaultNom ('P' :: '2' :: []) (by decide)

/-- C4: for every position, flag setting and nominal table, the extractor
produces exactly 64 attribution values, one per board square in square-index
order, and every unoccupied square's value is exactly 0. -/
theorem c4_rows_length_and_empty_zero
    (scores : Fin 64 → Fin 12 → Rat) (pos : Position) (nf sf : Bool) (tbl : NomTable) :
    (contribList scores pos nf sf tbl).length = 64 ∧
    ∀ i : Fin 64, pos.placement i = none →
      (contribList scores pos nf sf tbl).getD i.val 0 = 0 := by
  constructor
  · simp [contribList]
  · intro i hi
    rw [contribList_getD]
    simp [contribAt, hi]

/-- Witness for C4 at the starting position and the empty square a3 (index 16). -/
theorem c4_witness :
    startingBoard.placement (16 : Fin 64) = none ∧
    (contribList onesScores startingBoard true true defaultNom).getD ((16 : Fin 64)).val 0 = 0 :=
  ⟨by decide,
   (c4_rows_length_and_empty_zero onesScores startingBoard true true defaultNom).2
     (16 : Fin 64) (by decide)⟩

/-- C5: with both the normalize and the scale-piece flags set, an occupied
square whose kind has a defined nominal reports the raw attribution:
divide-then-multiply cancels exactly over exact arithmetic. -/
theorem c5_normalize_scale_cancel
    (scores : Fin 64 → Fin 12 → Rat) (pos : Position) (tbl : NomTable)
    (i : Fin 64) (p : Piece) (n : Rat)
    (hocc : pos.placement i = some p)
    (hnom : nominalMap tbl p.pieceType = some n) :
    (contribList scores pos true true tbl).getD i.val 0 = scores i (pieceIndex p) := by
  rw [contribList_getD]
  simp only [contribAt, hocc]
  rw [hnom, adjust_both_flags]

/-- Witness for C5: a lone pawn under the default table (nominal 1). -/
theorem c5_witness :
    (contribList onesScores pawnOnlyPos true true defaultNom).getD ((0 : Fin 64)).val 0
      = onesScores 0 (pieceIndex ⟨PieceType.pawn, true⟩) :=
  c5_normalize_scale_cancel onesScores pawnOnlyPos defaultNom 0 ⟨PieceType.pawn, true⟩ 1
    (by decide) (by decide)

/-- C6: the effective nominal table starts from the defaults
(pawn 1, knight 3, bishop 3, rook 5, queen 7, king none), is overwritten
exactly at the keys of well-formed override tokens with the last occurrence
winning, and every key not listed keeps its default. -/
theorem c6_override_table :
    (∀ (s : List Char) (tbl : NomTable), parseNominals s = Except.ok tbl →
      ∀ key, tbl key = lastValue (pairsOf s) key (defaultNom key)) ∧
    defaultNom ['P'] = some 1 ∧ defaultNom ['N'] = some 3 ∧
    defaultNom ['B'] = some 3 ∧ defaultNom ['R'] = some 5 ∧
    defaultNom ['Q'] = some 7 ∧ defaultNom ['K'] = none := by
  refine ⟨?_, by decide, by decide, by decide, by decide, by decide, by decide⟩
  intro s tbl h key
  exact foldl_parse_lastValue (splitOnChar ',' s) defaultNom tbl h key

/-- Witness for C6 at the spec's example override `"P:2,N:5"`: bishop keeps its
default 3 and pawn takes the overridden 2. -/
theorem c6_witness :
    (tableOf pnExample ['B'] = lastValue (pairsOf pnExample) ['B'] (defaultNom ['B']) ∧
      lastValue (pairsOf pnExample) ['B'] (defaultNom ['B']) = some 3) ∧
    (tableOf pnExample ['P'] = lastValue (pairsOf pnExample) ['P'] (defaultNom ['P']) ∧
      lastValue (pairsOf pnExample) ['P'] (defaultNom ['P']) = some 2) :=
  ⟨⟨c6_override_table.1 pnExample (tableOf pnExample) rfl ['B'], by decide⟩,
   ⟨c6_override_table.1 pnExample (tableOf pnExample) rfl ['P'], by decide⟩⟩

/-- C10: a zero nominal behaves exactly like an undefined one — both
adjustments are skipped (Python truthiness), so the normalize path never
divides by zero and the square reports the raw attribution. -/
theorem c10_zero_nominal_inert :
    (∀ (nf sf : Bool) (v : Rat),
      adjust nf sf (some 0) v = adjust nf sf none v ∧ adjust nf sf (some 0) v = v) ∧
    ∀ (scores : Fin 64 → Fin 12 → Rat) (pos : Position) (nf sf : Bool) (tbl : NomTable)
      (i : Fin 64) (p : Piece),
      pos.placement i = some p → nominalMap tbl p.pieceType = some 0 →
      (contribList scores pos nf sf tbl).getD i.val 0 = scores i (pieceIndex p) := by
  constructor
  · intro nf sf v
    constructor <;> simp [adjust]
  · intro scores pos nf sf tbl i p hocc hnom
    rw [contribList_getD]
    simp only [contribAt, hocc]
    rw [hnom]
    exact adjust_of_not_truthy nf sf (some 0) _ (by simp [truthy])

/-- Witness for C10: the override `"Q:0"` makes a lone queen report its raw
score under both flags. -/
theorem c10_witness :
    (contribList onesScores queenOnlyPos true true (tableOf qZeroArg)).getD ((0 : Fin 64)).val 0
      = onesScores 0 (pieceIndex ⟨PieceType.queen, true⟩) :=
  c10_zero_nominal_inert.2 onesScores queenOnlyPos true true (tableOf qZeroArg) 0
    ⟨PieceType.queen, true⟩ (by decide) (by decide)

/-- C1 fails as stated: attribution row index 0 corresponds to square a1, not
a8.  With a single rook on a8 (square index 56, value 1 under unit scores), the
row at index 0 is the zero of an empty square and the rook's value sits at
index 56. -/
theorem c1_counterexample :
    (contribList onesScores rookA8Pos false false defaultNom).getD 0 0 = 0 ∧
    (contribList onesScores rookA8Pos false false defaultNom).getD 56 0 = 1 ∧
    squareNameNat 0 = "a1" ∧ squareNameNat 56 = "a8" :=
  ⟨by decide, by decide, by decide, by decide⟩

/-- C1 amended: the 64 attribution rows are index-aligned with the score rows
in python-chess square order — index 0 = a1, file a to h within each rank,
rank 1 up to rank 8 — and the plain numeric grid does print rank 8 as the top
row with files a through h left to right. -/
theorem c1_grid_layout :
    (∀ (scores : Fin 64 → Fin 12 → Rat) (pos : Position) (nf sf : Bool)
      (tbl : NomTable) (i : Fin 64),
      (contribList scores pos nf sf tbl).getD i.val 0 = contribAt scores pos nf sf tbl i) ∧
    squareNameNat 0 = "a1" ∧
    ∀ (contrib : List Rat) (j f : Nat), j < 8 → f < 8 →
      ((formatMatrix contrib).getD j []).getD f 0 = contrib.getD ((7 - j) * 8 + f) 0 ∧
      squareRankNat ((7 - j) * 8 + f) = 8 - j ∧
      squareFileNat ((7 - j) * 8 + f) = f := by
  refine ⟨contribList_getD, by decide, ?_⟩
  intro contrib j f hj hf
  interval_cases j <;> interval_cases f <;> exact ⟨rfl, by decide, by decide⟩

/-- Witness for C1 at the top-left grid cell: it shows row 56, the a8 square. -/
theorem c1_witness :
    ((formatMatrix (contribList onesScores startingBoard false false defaultNom)).getD 0 []).getD 0 0
      = (contribList onesScores startingBoard false false defaultNom).getD ((7 - 0) * 8 + 0) 0 ∧
    squareRankNat ((7 - 0) * 8 + 0) = 8 - 0 ∧
    squareFileNat ((7 - 0) * 8 + 0) = 0 :=
  c1_grid_layout.2.2 (contribList onesScores startingBoard false false defaultNom) 0 0
    (by decide) (by decide)

/-- C2 fails as stated: the default override string sets `K:4.6`, so with the
normalize flag set a king square reports `raw / 4.6` — a raw attribution of 1
is reported as 5/23, not 1. -/
theorem c2_counterexample :
    tableOf defaultNominalsArg ['K'] = some (mkRat 23 5) ∧
    (contribList onesScores kingOnlyPos true false (tableOf defaultNominalsArg)).getD 0 0
      = mkRat 5 23 ∧
    onesScores 0 (pieceIndex ⟨PieceType.king, true⟩) = 1 ∧
    mkRat 5 23 ≠ (1 : Rat) := by
  refine ⟨by decide, ?_, by decide, by decide⟩
  have h := getD_ofFn (contribAt onesScores kingOnlyPos true false (tableOf defaultNominalsArg)) 0
  rw [show ((0 : Fin 64)).val = 0 from rfl] at h
  rw [contribList, h]
  have hk : nominalMap (tableOf defaultNominalsArg) PieceType.king = some (mkRat 23 5) := by decide
  rw [contribAt]
  norm_num [kingOnlyPos, singlePieceAt, adjust, hk, onesScores]

/-- C2 amended: a king square reports the raw attribution exactly in the cases
where the effective table gives the king no usable nominal (absent or zero) —
in particular whenever the override string does not mention `K` — but an
override assigning the king a nonzero nominal (as the default `K:4.6` does)
subjects king squares to both adjustments like any other piece. -/
theorem c2_king_raw_when_untruthy
    (scores : Fin 64 → Fin 12 → Rat) (pos : Position) (nf sf : Bool)
    (tbl : NomTable) (i : Fin 64) (p : Piece)
    (hocc : pos.placement i = some p)
    (hking : p.pieceType = PieceType.king)
    (hnom : truthy (nominalMap tbl PieceType.king) = false) :
    (contribList scores pos nf sf tbl).getD i.val 0 = scores i (pieceIndex p) := by
  rw [contribList_getD]
  simp only [contribAt, hocc]
  exact adjust_of_not_truthy nf sf _ _ (by rw [hking]; exact hnom)

/-- Witness for C2 amended: under the hard-coded defaults (no `K` entry) a lone
king reports its raw score even with both flags set. -/
theorem c2_witness :
    truthy (nominalMap defaultNom PieceType.king) = false ∧
    (contribList onesScores kingOnlyPos true true defaultNom).getD ((0 : Fin 64)).val 0
      = onesScores 0 (pieceIndex ⟨PieceType.king, true⟩) :=
  ⟨by decide,
   c2_king_raw_when_untruthy onesScores kingOnlyPos true true defaultNom 0
     ⟨PieceType.king, true⟩ (by decide) rfl (by decide)⟩

/-- C7: counterfactual analysis yields exactly one row per square occupied by a
non-king piece, in square-index order — never a row for a king-occupied or
empty square — and on the standard starting position exactly 30 rows, for any
evaluator. -/
theorem c7_rows_per_square :
    (∀ (ev : Evaluator) (pos : Position),
      (counterfactualRows ev pos).map CounterfactualRow.sqIdx
        = (List.finRange 64).filter (fun i => nonKingOccupied pos i)) ∧
    ∀ ev : Evaluator, (counterfactualRows ev startingBoard).length = 30 := by
  have hmain : ∀ (ev : Evaluator) (pos : Position),
      (counterfactualRows ev pos).map CounterfactualRow.sqIdx
        = (List.finRange 64).filter (fun i => nonKingOccupied pos i) := by
    intro ev pos
    simp only [counterfactualRows]
    refine filterMap_map_eq_filter _ _ _ ?_ (List.finRange 64)
    intro i
    cases hp : pos.placement i with
    | none => simp [nonKingOccupied, hp]
    | some piece =>
      by_cases hk : piece.pieceType = PieceType.king
      · simp [nonKingOccupied, hp, hk]
      · simp [nonKingOccupied, hp, hk]
  refine ⟨hmain, ?_⟩
  intro ev
  have h := congrArg List.length (hmain ev startingBoard)
  rw [List.length_map] at h
  rw [h]
  decide

/-- C8: every counterfactual row's delta is the original global score minus the
global score of the position with that one piece removed, and the ranked output
is the full row list — a permutation, not a truncation — sorted by delta
descending. -/
theorem c8_delta_and_ranking (ev : Evaluator) (pos : Position) :
    (∀ row ∈ counterfactualRows ev pos,
      row.delta = (ev pos).1 - (ev (removedPosition pos row.sqIdx)).1) ∧
    (reportedDeltas ev pos).Perm (counterfactualRows ev pos) ∧
    (reportedDeltas ev pos).Pairwise (fun a b => b.delta ≤ a.delta) := by
  refine ⟨?_, List.mergeSort_perm _ _, ?_⟩
  · intro row hrow
    simp only [counterfactualRows, List.mem_filterMap] at hrow
    obtain ⟨i, _, hi⟩ := hrow
    cases hp : pos.placement i with
    | none =>
      simp only [hp] at hi
      exact Option.noConfusion hi
    | some piece =>
      simp only [hp] at hi
      by_cases hk : piece.pieceType = PieceType.king
      · rw [if_pos hk] at hi; cases hi
      · rw [if_neg hk] at hi
        cases hi
        rfl
  · have htrans : ∀ a b c : CounterfactualRow, deltaGe a b → deltaGe b c → deltaGe a c := by
      intro a b c hab hbc
      simp only [deltaGe, decide_eq_true_eq] at *
      exact le_trans hbc hab
    have htotal : ∀ a b : CounterfactualRow, (deltaGe a b || deltaGe b a) = true := by
      intro a b
      simp only [deltaGe, Bool.or_eq_true, decide_eq_true_eq]
      exact le_total b.delta a.delta
    have h := List.sorted_mergeSort htrans htotal (counterfactualRows ev pos)
    exact h.imp (fun hab => by simpa [deltaGe] using hab)

/-- Witness for C8: the single row of a lone pawn under the stub evaluator. -/
theorem c8_witness :
    pawnRow.delta = (zeroEv pawnOnlyPos).1 - (zeroEv (removedPosition pawnOnlyPos pawnRow.sqIdx)).1 :=
  (c8_delta_and_ranking zeroEv pawnOnlyPos).1 pawnRow (by
    refine List.mem_filterMap.mpr ⟨0, List.mem_finRange 0, ?_⟩
    have hp : pawnOnlyPos.placement 0 = some ⟨PieceType.pawn, true⟩ := by decide
    simp only [hp]
    rw [if_neg (by decide)]
    simp only [pawnRow, zeroEv, Option.some.injEq, CounterfactualRow.mk.injEq]
    refine ⟨by norm_num, by decide, by decide, trivial⟩)

/-- C9: counterfactual analysis never mutates the original position — the
state-threading loop hands the original board through unchanged, and each
derived position agrees with the original everywhere except the one analysed
square (now empty), carries identical metadata, and has no move history. -/
theorem c9_no_mutation (ev : Evaluator) (pos : Position) (i : Fin 64) :
    (counterfactualLoop ev pos).2 = pos ∧
    (∀ j : Fin 64, (removedPosition pos i).placement j
        = if j = i then none else pos.placement j) ∧
    (removedPosition pos i).moveStack = [] ∧
    (removedPosition pos i).turn = pos.turn ∧
    (removedPosition pos i).castlingRights = pos.castlingRights ∧
    (removedPosition pos i).epSquare = pos.epSquare ∧
    (removedPosition pos i).halfmoveClock = pos.halfmoveClock ∧
    (removedPosition pos i).fullmoveNumber = pos.fullmoveNumber := by
  refine ⟨?_, ?_, rfl, rfl, rfl, rfl, rfl, rfl⟩
  · rw [counterfactualLoop,
      foldl_snd_const (counterfactualStep ev (ev pos).1) (counterfactualStep_snd ev (ev pos).1)]
  · intro j
    simp [removedPosition, removePieceAt, copyNoStack, Function.update_apply]

end ShowMatrix

